import Mathlib

/-!
Formal model of `nbexplode.py`: a shallow embedding of the notebook
"explode" routine, which expands a parameterized notebook into one
notebook per element of the Cartesian product of its declared
parameter value sequences.
-/

/-- A notebook cell; only its `input` (source text) field is relevant. -/
structure Cell where
  input : String
deriving DecidableEq, Repr

/-- A worksheet: an ordered sequence of cells. -/
structure Worksheet where
  cells : List Cell
deriving DecidableEq, Repr

/-- A notebook document: an ordered collection of worksheets. -/
structure Notebook where
  worksheets : List Worksheet
deriving DecidableEq, Repr

/-- Universe of Python values appearing as parameter values in the
modelled fragment: integers, strings and (nested) lists. -/
inductive PyVal where
  | int (n : Int)
  | str (s : String)
  | list (vs : List PyVal)

/-- Decimal digits of a natural number, most significant first
(fuel-based so that it reduces definitionally). -/
def natDigitsAux : Nat → Nat → List Char
  | 0, _ => []
  | fuel + 1, n =>
    if n = 0 then [] else natDigitsAux fuel (n / 10) ++ [Nat.digitChar (n % 10)]

/-- Decimal representation of a natural number. -/
def natDigits (n : Nat) : List Char :=
  if n = 0 then ['0'] else natDigitsAux (n + 1) n

/-- Python `repr` of an integer (decimal, `-` sign for negatives). -/
def intRepr : Int → String
  | .ofNat m => ⟨natDigits m⟩
  | .negSucc m => ⟨'-' :: natDigits (m + 1)⟩

/-- One escaped source character of a Python string literal quoted by `q`. -/
def escapeChar (q c : Char) : List Char :=
  if c = '\\' then ['\\', '\\']
  else if c = q then ['\\', q]
  else if c = '\n' then ['\\', 'n']
  else if c = '\t' then ['\\', 't']
  else if c = '\r' then ['\\', 'r']
  else [c]

/-- Python `repr` of a string: single-quoted, except double-quoted when the
string contains a single quote but no double quote; quotes, backslashes and
common control characters are escaped.  (Models CPython `repr` on strings of
printable characters.) -/
def strRepr (s : String) : String :=
  let q : Char := if s.data.contains '\'' && !(s.data.contains '\"') then '\"' else '\''
  ⟨q :: (s.data.map (escapeChar q)).flatten ++ [q]⟩

mutual
/-- Python `repr` on the modelled value universe. -/
def pyRepr : PyVal → String
  | .int n => intRepr n
  | .str s => strRepr s
  | .list vs => "[" ++ pyReprList vs ++ "]"

/-- Comma-separated `repr`s of list elements. -/
def pyReprList : List PyVal → String
  | [] => ""
  | [v] => pyRepr v
  | v :: w :: rest => pyRepr v ++ ", " ++ pyReprList (w :: rest)
end

/-- Python `str` (`%s` formatting): strings stay unquoted, otherwise `repr`. -/
def pyStr : PyVal → String
  | .str s => s
  | v => pyRepr v

/-- Python truthiness of a value (`if saved:`). -/
def pyTruthy : PyVal → Bool
  | .int n => n != 0
  | .str s => !s.isEmpty
  | .list vs => !vs.isEmpty

/-- Python `len`, defined on sized values (`len(saved)`). -/
def pyLen : PyVal → Option Nat
  | .int _ => none
  | .str s => some s.length
  | .list vs => some vs.length

/-- Python iteration: lists yield their elements, strings their
one-character substrings; integers are not iterable. -/
def pyIterate : PyVal → Option (List PyVal)
  | .int _ => none
  | .str s => some (s.data.map (fun c => .str (String.singleton c)))
  | .list vs => some vs

/-- Iterate every value of the parameter mapping (`product(*params.values())`
materializes each argument; a non-iterable value is a `TypeError`). -/
def iterateAll : List (String × PyVal) → Option (List (String × List PyVal))
  | [] => some []
  | (k, v) :: rest => do
    let l ← pyIterate v
    let r ← iterateAll rest
    pure ((k, l) :: r)

/-- `itertools.product`: Cartesian product of the given sequences, first
sequence varying slowest, last varying fastest. -/
def pyProduct : List (List PyVal) → List (List PyVal)
  | [] => [[]]
  | xs :: rest => xs.flatMap (fun x => (pyProduct rest).map (fun t => x :: t))

/-- `"%04d" % i`: decimal form of `i`, zero-padded on the left to at least
four characters. -/
def pad4 (i : Nat) : String :=
  let s := natDigits i
  ⟨List.replicate (4 - s.length) '0' ++ s⟩

/-- Does `sep` occur at the head of `s`? -/
def beginsWith : List Char → List Char → Bool
  | [], _ => true
  | _ :: _, [] => false
  | a :: as, b :: bs => a == b && beginsWith as bs

/-- Longest prefix of `s` before the first occurrence of `sep`
(all of `s` when `sep` does not occur). -/
def stripFirstOcc (sep : List Char) : List Char → List Char
  | [] => []
  | c :: rest => if beginsWith sep (c :: rest) then [] else c :: stripFirstOcc sep rest

/-- Does `sep` occur (as a contiguous sublist) anywhere in `s`? -/
def occursIn (sep : List Char) : List Char → Bool
  | [] => beginsWith sep []
  | c :: rest => beginsWith sep (c :: rest) || occursIn sep rest

/-- The characters of the separator `'.ipynb'`. -/
def ipynbSep : List Char := ['.', 'i', 'p', 'y', 'n', 'b']

/-- `ipynb.rsplit('.ipynb')[0]`: the part of the path before the first
occurrence of the substring `.ipynb` (the whole path when absent). -/
def pyBasename (ipy : String) : String :=
  ⟨stripFirstOcc ipynbSep ipy.data⟩

/-- `str.lower()`, character-wise. -/
def lowerStr (s : String) : String := ⟨s.data.map Char.toLower⟩

/-- `str.startswith(pat)`. -/
def startsWithStr (pat s : String) : Bool := beginsWith pat.data s.data

/-- Constant prefix of the rendered `loader_template` (text before the
interpolated output filename). -/
def loaderA : String := "\n# What follows is a code snippet to load the __saved__ variables on\n# re-execution, of this notebook.  This code only raises exception if the last\n# cell in this notebook ran, and the desired variables were saved\ntry:\n    saved_npz = '"

/-- Constant middle part of the rendered `loader_template` (between the
`.npz` archive name and the interpolated `__save__` display string). -/
def loaderB : String := "';\n    import numpy as np; _loaded = np.load(saved_npz);\n    locals().update(_loaded); import datetime; import os.path;\n    tstamp = os.path.getmtime(saved_npz) ;\n    t = datetime.datetime.fromtimestamp(tstamp).strftime(\"%Y-%d-%m @ %H:%M:%S\")\n    class AlreadyRan(Exception): pass\n    raise AlreadyRan(\"it appears this notebook already ran on %s, halting\" %t)\nexcept IOError:\n    pass\n__save__ = "

/-- `loader_template % (outfile, saved)`: the loader snippet interpolating
the output filename (whose `.npz` archive it reads) and the display string
of the saved-variables value.  `%%` in the source template renders as `%`. -/
def loader_template (outfile savedStr : String) : String :=
  loaderA ++ outfile ++ ".npz" ++ loaderB ++ savedStr ++ "\n"

/-- `footer_template % (outfile, saved_params)`: the autogenerated saving
cell, a `np.savez` call on the output filename and the keyword
associations of the saved variables. -/
def footer_template (outfile savedParams : String) : String :=
  "## autogenerated saving cell\nnp.savez('" ++ outfile ++ "', " ++ savedParams ++ ")\n"

/-- `nb.worksheets[0].cells[0]` (indexing failure modelled as `none`). -/
def getFirstCell (nb : Notebook) : Option Cell :=
  match nb.worksheets with
  | [] => none
  | w :: _ => w.cells.head?

/-- Overwrite `nb.worksheets[0].cells[0].input` (no-op on a notebook with
no first cell, which `explode` rules out earlier). -/
def setFirstInput (nb : Notebook) (s : String) : Notebook :=
  match nb.worksheets with
  | [] => nb
  | w :: ws =>
    match w.cells with
    | [] => ⟨⟨[]⟩ :: ws⟩
    | _ :: cs => ⟨⟨⟨s⟩ :: cs⟩ :: ws⟩

/-- Overwrite the `input` of the last cell of a list of cells. -/
def modifyLastInput : List Cell → String → List Cell
  | [], _ => []
  | [_], s => [⟨s⟩]
  | c :: c2 :: cs, s => c :: modifyLastInput (c2 :: cs) s

/-- Overwrite the `input` of the last cell of `nb.worksheets[0].cells`
(models mutating the appended, aliased `last_cell` object). -/
def setLastInput (nb : Notebook) (s : String) : Notebook :=
  match nb.worksheets with
  | [] => nb
  | w :: ws => ⟨⟨modifyLastInput w.cells s⟩ :: ws⟩

/-- `nb.worksheets[0].cells.append(c)`. -/
def appendCell (nb : Notebook) (c : Cell) : Notebook :=
  match nb.worksheets with
  | [] => nb
  | w :: ws => ⟨⟨w.cells ++ [c]⟩ :: ws⟩

/-- The cells of the first worksheet. -/
def cellsOf (nb : Notebook) : List Cell :=
  match nb.worksheets with
  | [] => []
  | w :: _ => w.cells

/-- Number of cells of the first worksheet. -/
def cellsLen (nb : Notebook) : Nat := (cellsOf nb).length

/-- Source text of the first cell of the first worksheet (`""` if absent). -/
def firstInputOf (nb : Notebook) : String :=
  ((cellsOf nb).head?.map Cell.input).getD ""

/-- Source text of the last cell of the first worksheet (`""` if absent). -/
def lastInputOf (nb : Notebook) : String :=
  ((cellsOf nb).getLast?.map Cell.input).getD ""

/-- One output-file write: the output filename and the notebook document
serialized into it (`writes(nb, 'json')` is a deterministic function of the
document, so the document stands for the written bytes). -/
structure Write where
  filename : String
  doc : Notebook

/-- Observable outcome of one `explode` call.  `noParams` is the
warn-and-return path; `evalError` is an exception escaping the `exec` of
the first cell; `typeError` a non-iterable where Python iterates;
`nameError` the unbound-global failure inside the loop; `structError` a
missing first worksheet or cell.  `ok` carries the final (in-place
mutated) notebook object, the file writes in order, and the filenames
printed to stdout. -/
inductive ExplodeRes where
  | structError
  | noParams
  | evalError (msg : String)
  | typeError
  | nameError
  | ok (finalNb : Notebook) (writes : List Write) (printed : List String)

/-- The writes performed by an outcome (error outcomes write nothing:
every failure in `explode` happens before the first `open`). -/
def writesOf : ExplodeRes → List Write
  | .ok _ ws _ => ws
  | _ => []

/-- The final state of the notebook object, when the call returned. -/
def finalNbOf : ExplodeRes → Option Notebook
  | .ok nbf _ _ => some nbf
  | _ => none

/-- `args.prefix + ipynb.rsplit('.ipynb')[0] + "%04d" % i + ".ipynb"`:
the output filename of combination `i`. -/
def outfileFor (ipy pfx : String) (i : Nat) : String :=
  pfx ++ pyBasename ipy ++ pad4 i ++ ".ipynb"

/-- `"## Parameterized by %s\n" % ipynb`: the rewritten first cell's header. -/
def headerFor (ipy : String) : String :=
  "## Parameterized by " ++ ipy ++ "\n"

/-- `'%s = %s' % (k, repr(v))`: one fixed-parameter assignment line. -/
def assignLine (k : String) (v : PyVal) : String :=
  k ++ " = " ++ pyRepr v

/-- The rewritten first cell of combination `(i, p)`:
`header + "\n".join(assignments) + loader`, the loader present exactly when
`len(saved)` is nonzero. -/
def firstInputFor (ipy pfx : String) (savedVal : PyVal) (keys : List String)
    (i : Nat) (p : List PyVal) : String :=
  headerFor ipy
    ++ "\n".intercalate ((keys.zip p).map (fun kv => assignLine kv.1 kv.2))
    ++ (if (pyLen savedVal).getD 0 != 0 then
          loader_template (outfileFor ipy pfx i) (pyStr savedVal)
        else "")

/-- The notebook document as serialized for combination `(i, p)`, obtained
from `nbBase` by overwriting the first cell's input and — when a save-list
was declared (`if saved:`), so that a trailing save cell was appended and
is aliased by `last_cell` — overwriting that last cell's input with the
rendered footer. -/
def docFor (nbBase : Notebook) (ipy pfx : String) (savedVal : PyVal)
    (savedParams : String) (keys : List String) (i : Nat) (p : List PyVal) : Notebook :=
  let nbA := setFirstInput nbBase (firstInputFor ipy pfx savedVal keys i p)
  if pyTruthy savedVal then
    setLastInput nbA (footer_template (outfileFor ipy pfx i) savedParams)
  else nbA

/-- The body of `explode`'s `for i, p in enumerate(product(...))` loop,
threading the in-place mutated notebook object through the iterations.
Per iteration it computes the output name from the module globals
`ipynb`/`args.prefix`, performs the two cell mutations (`docFor`),
snapshots the document as the file write, and prints the filename unless
quiet. -/
def explodeLoop (ipy pfx : String) (savedVal : PyVal) (savedParams : String)
    (keys : List String) (quiet : Bool) :
    Nat → List (List PyVal) → Notebook → Notebook × List Write × List String
  | _, [], nbCur => (nbCur, [], [])
  | i, p :: rest, nbCur =>
    let outfile := outfileFor ipy pfx i
    let nbB := docFor nbCur ipy pfx savedVal savedParams keys i p
    let res := explodeLoop ipy pfx savedVal savedParams keys quiet (i + 1) rest nbB
    (res.1, ⟨outfile, nbB⟩ :: res.2.1, (if quiet then [] else [outfile]) ++ res.2.2)

/-- Shallow embedding of `explode(nb, quiet, stdout)`.

`evalCell` abstracts `exec(first_cell.input, globals(), params)`: given the
first cell's source it returns the ordered name-to-value bindings made by
that execution, or the message of the exception it raised.  `globalsEnv`
models the module-level globals `ipynb` and `args.prefix` the loop body
reads: `some (ipynb, args.prefix)` when running under `__main__`, `none`
when they are unbound (library use), in which case the first loop
iteration hits a `NameError`.  The `stdout` flag is accepted and unused,
as in the source. -/
def explode (evalCell : String → Except String (List (String × PyVal)))
    (globalsEnv : Option (String × String)) (nb : Notebook)
    (quiet : Bool) (stdout : Bool) : ExplodeRes :=
  match getFirstCell nb with
  | none => .structError
  | some first_cell =>
    if ! startsWithStr "## parameters" (lowerStr first_cell.input) then
      .noParams
    else
      match evalCell first_cell.input with
      | .error e => .evalError e
      | .ok paramsRaw =>
        let savedVal := (paramsRaw.lookup "__save__").getD (.list [])
        match pyIterate savedVal with
        | none => .typeError
        | some savedItems =>
          let params := paramsRaw.filter (fun kv => kv.1 != "__save__")
          let saved_params := ", ".intercalate (savedItems.map (fun var => pyStr var ++ "=" ++ pyStr var))
          let nb1 := if pyTruthy savedVal then appendCell nb first_cell else nb
          match iterateAll params with
          | none => .typeError
          | some keyed =>
            let combos := pyProduct (keyed.map Prod.snd)
            match globalsEnv with
            | none => if combos.isEmpty then .ok nb1 [] [] else .nameError
            | some (ipy, pfx) =>
              let res := explodeLoop ipy pfx savedVal saved_params
                (keyed.map Prod.fst) quiet 0 combos nb1
              .ok res.1 res.2.1 res.2.2

/-- The write list the loop produces, in closed form: one write per
combination, combination `p` at enumeration index `i` going to file
`outfileFor i` with document `docFor nbBase i p`. -/
def expectedWrites (nbBase : Notebook) (ipy pfx : String) (savedVal : PyVal)
    (savedParams : String) (keys : List String) :
    Nat → List (List PyVal) → List Write
  | _, [] => []
  | i, p :: rest =>
    ⟨outfileFor ipy pfx i, docFor nbBase ipy pfx savedVal savedParams keys i p⟩
      :: expectedWrites nbBase ipy pfx savedVal savedParams keys (i + 1) rest

/-- The filenames printed by the loop, in closed form: every output
filename in order, or nothing in quiet mode. -/
def expectedPrints (ipy pfx : String) (quiet : Bool) :
    Nat → List (List PyVal) → List String
  | _, [] => []
  | i, _ :: rest =>
    (if quiet then [] else [outfileFor ipy pfx i]) ++ expectedPrints ipy pfx quiet (i + 1) rest

/-- `", ".join(["%s=%s" % (var, var) for var in saved])`. -/
def savedParamsOf (savedItems : List PyVal) : String :=
  ", ".intercalate (savedItems.map (fun var => pyStr var ++ "=" ++ pyStr var))

/-- Digit characters read as a decimal number. -/
def digitsToNat (ds : List Char) : Nat :=
  ds.foldl (fun a c => 10 * a + (c.toNat - 48)) 0

/-- A character allowed in a (modelled) Python identifier. -/
def isIdentChar (c : Char) : Bool := c.isAlphanum || c == '_'

/-- A nonempty identifier made of identifier characters, not starting
with a digit. -/
def isIdentName (s : String) : Bool :=
  !s.data.isEmpty && s.data.all isIdentChar && !((s.data.headD 'a').isDigit)

/-- An integer literal: optional `-` sign followed by decimal digits,
consuming the whole input. -/
def parseIntLit (cs : List Char) : Option PyVal :=
  match cs with
  | [] => none
  | c :: ds =>
    if c = '-' then
      if !ds.isEmpty && ds.all Char.isDigit then some (.int (-(digitsToNat ds : Int)))
      else none
    else
      if (c :: ds).all Char.isDigit then some (.int (digitsToNat (c :: ds)))
      else none

/-- A string-literal body character needing no escaping: not a single
quote, backslash, or common control character. -/
def simpleLitChar (c : Char) : Bool :=
  c != '\'' && c != '\\' && c != '\n' && c != '\t' && c != '\r'

/-- A single-quoted string literal with an escape-free body, consuming
the whole input. -/
def parseStrLit (cs : List Char) : Option PyVal :=
  match cs with
  | [] => none
  | c :: rest =>
    if c = '\'' ∧ rest.getLast? = some '\'' ∧ rest.dropLast.all simpleLitChar = true then
      some (.str ⟨rest.dropLast⟩)
    else none

/-- A literal: a single-quoted string if the input starts with a quote,
otherwise an integer. -/
def parseLit (cs : List Char) : Option PyVal :=
  match cs with
  | [] => none
  | c :: _ => if c = '\'' then parseStrLit cs else parseIntLit cs

/-- Parse one generated assignment line `name = <literal>` back into the
bound name and its value. -/
def parseAssign (line : String) : Option (String × PyVal) :=
  let cs := line.data
  let name := cs.takeWhile isIdentChar
  if name.isEmpty then none
  else
    match cs.drop name.length with
    | ' ' :: '=' :: ' ' :: lit => (parseLit lit).map (fun v => (⟨name⟩, v))
    | _ => none

/-- Values whose generated textual representation is re-parsable by
`parseAssign`: integers, and strings of escape-free body characters. -/
def reparsable : PyVal → Bool
  | .int _ => true
  | .str s => s.data.all simpleLitChar
  | .list _ => false

/-- Concrete two-cell sample notebook, first cell declaring `x` over two
integers and `y` over two strings (the worked example of the docstring). -/
def nbSample : Notebook :=
  ⟨[⟨[⟨"## Parameters\nx = [1, 2]\ny = ['a', 'b']"⟩, ⟨"print(x, y)"⟩]⟩]⟩

/-- Evaluation oracle for `nbSample`'s first cell: binds `x` to `[1, 2]`
and `y` to `['a', 'b']`, in that order. -/
def evSample : String → Except String (List (String × PyVal)) := fun _ =>
  .ok [("x", .list [.int 1, .int 2]), ("y", .list [.str "a", .str "b"])]

/-- A second oracle, differently defined but agreeing with `evSample` on
`nbSample`'s first cell. -/
def evSampleAlt : String → Except String (List (String × PyVal)) := fun s =>
  if s = "" then .error "empty cell"
  else .ok [("x", .list [.int 1, .int 2]), ("y", .list [.str "a", .str "b"])]

/-- A notebook whose first cell does not start with the parameters marker. -/
def nbPlain : Notebook := ⟨[⟨[⟨"print('hello')"⟩]⟩]⟩

/-- An oracle whose execution of the first cell raises. -/
def evFail : String → Except String (List (String × PyVal)) := fun _ =>
  .error "NameError: name 'undefined_thing' is not defined"

/-- A notebook declaring parameters and a two-name save-list. -/
def nbSave : Notebook :=
  ⟨[⟨[⟨"## Parameters\nx = [1, 2]\n__save__ = ['a', 'b']"⟩, ⟨"a = x\nb = x * 2"⟩]⟩]⟩

/-- Oracle for `nbSave`'s first cell: binds `x` then `__save__`. -/
def evSave : String → Except String (List (String × PyVal)) := fun _ =>
  .ok [("x", .list [.int 1, .int 2]), ("__save__", .list [.str "a", .str "b"])]

/-- A notebook whose single declared parameter ranges over an empty
sequence, so the combination loop body never runs. -/
def nbEmptySeq : Notebook := ⟨[⟨[⟨"## Parameters\nx = []"⟩, ⟨"print(x)"⟩]⟩]⟩

/-- Oracle for `nbEmptySeq`'s first cell: binds `x` to the empty list. -/
def evEmptySeq : String → Except String (List (String × PyVal)) := fun _ =>
  .ok [("x", .list [])]


/-! ### Structural lemmas about the notebook operations -/

theorem modifyLastInput_eq (s : String) :
    ∀ l : List Cell, l ≠ [] → modifyLastInput l s = l.dropLast ++ [⟨s⟩]
  | [], h => absurd rfl h
  | [_], _ => rfl
  | c :: c2 :: cs, _ => by
    have ih := modifyLastInput_eq s (c2 :: cs) (by simp)
    simp [modifyLastInput, ih]

theorem modifyLastInput_modifyLastInput (l : List Cell) (s t : String) :
    modifyLastInput (modifyLastInput l s) t = modifyLastInput l t := by
  rcases l with _ | ⟨c, cs⟩
  · rfl
  · rw [modifyLastInput_eq s (c :: cs) (by simp)]
    rw [modifyLastInput_eq t (c :: cs) (by simp)]
    rw [modifyLastInput_eq t _ (by simp)]
    rw [List.dropLast_concat]

theorem length_modifyLastInput (l : List Cell) (s : String) :
    (modifyLastInput l s).length = l.length := by
  rcases l with _ | ⟨c, cs⟩
  · rfl
  · rw [modifyLastInput_eq s (c :: cs) (by simp)]
    simp

theorem getLast?_modifyLastInput (l : List Cell) (s : String) (h : l ≠ []) :
    (modifyLastInput l s).getLast? = some ⟨s⟩ := by
  rw [modifyLastInput_eq s l h, List.getLast?_concat]

theorem setFirstInput_setFirstInput (nb : Notebook) (s t : String) :
    setFirstInput (setFirstInput nb s) t = setFirstInput nb t := by
  rcases nb with ⟨_ | ⟨⟨_ | ⟨c, cs⟩⟩, ws⟩⟩ <;> rfl

theorem setLastInput_setLastInput (nb : Notebook) (s t : String) :
    setLastInput (setLastInput nb s) t = setLastInput nb t := by
  rcases nb with ⟨_ | ⟨⟨cs⟩, ws⟩⟩
  · rfl
  · simp [setLastInput, modifyLastInput_modifyLastInput]

theorem setFirstInput_setLastInput_comm (nb : Notebook) (s t : String)
    (h : 2 ≤ cellsLen nb) :
    setFirstInput (setLastInput nb s) t = setLastInput (setFirstInput nb t) s := by
  rcases nb with ⟨_ | ⟨⟨_ | ⟨c, _ | ⟨c2, cs⟩⟩⟩, ws⟩⟩ <;>
    first
      | rfl
      | simp [cellsLen, cellsOf] at h

theorem cellsLen_setFirstInput (nb : Notebook) (s : String) :
    cellsLen (setFirstInput nb s) = cellsLen nb := by
  rcases nb with ⟨_ | ⟨⟨_ | ⟨c, cs⟩⟩, ws⟩⟩ <;> rfl

theorem cellsLen_setLastInput (nb : Notebook) (s : String) :
    cellsLen (setLastInput nb s) = cellsLen nb := by
  rcases nb with ⟨_ | ⟨⟨cs⟩, ws⟩⟩
  · rfl
  · simp [setLastInput, cellsLen, cellsOf, length_modifyLastInput]

theorem worksheets_ne_nil_of_getFirstCell (nb : Notebook) (c : Cell)
    (h : getFirstCell nb = some c) : nb.worksheets ≠ [] := by
  rcases nb with ⟨_ | ⟨w, ws⟩⟩ <;> simp [getFirstCell] at h ⊢

theorem cellsLen_pos_of_getFirstCell (nb : Notebook) (c : Cell)
    (h : getFirstCell nb = some c) : 1 ≤ cellsLen nb := by
  rcases nb with ⟨_ | ⟨⟨_ | ⟨c0, cs⟩⟩, ws⟩⟩ <;>
    simp [getFirstCell, cellsLen, cellsOf] at h ⊢

theorem cellsLen_appendCell (nb : Notebook) (c : Cell)
    (h : nb.worksheets ≠ []) : cellsLen (appendCell nb c) = cellsLen nb + 1 := by
  rcases nb with ⟨_ | ⟨⟨cs⟩, ws⟩⟩
  · simp at h
  · simp [appendCell, cellsLen, cellsOf]

theorem firstInputOf_setFirstInput (nb : Notebook) (s : String)
    (h : 1 ≤ cellsLen nb) : firstInputOf (setFirstInput nb s) = s := by
  rcases nb with ⟨_ | ⟨⟨_ | ⟨c, cs⟩⟩, ws⟩⟩ <;>
    first
      | rfl
      | simp [cellsLen, cellsOf] at h

theorem firstInputOf_setLastInput (nb : Notebook) (s : String)
    (h : 2 ≤ cellsLen nb) : firstInputOf (setLastInput nb s) = firstInputOf nb := by
  rcases nb with ⟨_ | ⟨⟨_ | ⟨c, _ | ⟨c2, cs⟩⟩⟩, ws⟩⟩ <;>
    first
      | rfl
      | simp [cellsLen, cellsOf] at h

theorem lastInputOf_setLastInput (nb : Notebook) (s : String)
    (h : 1 ≤ cellsLen nb) : lastInputOf (setLastInput nb s) = s := by
  rcases nb with ⟨_ | ⟨⟨_ | ⟨c, cs⟩⟩, ws⟩⟩
  · simp [cellsLen, cellsOf] at h
  · simp [cellsLen, cellsOf] at h
  · simp [setLastInput, lastInputOf, cellsOf,
      getLast?_modifyLastInput (c :: cs) s (by simp)]

/-! ### The per-combination document and the write loop -/

theorem docFor_docFor (nbBase : Notebook) (ipy pfx : String) (savedVal : PyVal)
    (savedParams : String) (keys : List String) (i j : Nat) (p q : List PyVal)
    (h2 : pyTruthy savedVal = true → 2 ≤ cellsLen nbBase) :
    docFor (docFor nbBase ipy pfx savedVal savedParams keys i p)
        ipy pfx savedVal savedParams keys j q
      = docFor nbBase ipy pfx savedVal savedParams keys j q := by
  cases hT : pyTruthy savedVal
  · simp only [docFor, hT, Bool.false_eq_true, if_false, setFirstInput_setFirstInput]
  · simp only [docFor, hT, if_true]
    rw [setFirstInput_setLastInput_comm _ _ _
        (by rw [cellsLen_setFirstInput]; exact h2 hT)]
    rw [setFirstInput_setFirstInput, setLastInput_setLastInput]

theorem firstInputOf_docFor (nbBase : Notebook) (ipy pfx : String) (savedVal : PyVal)
    (savedParams : String) (keys : List String) (i : Nat) (p : List PyVal)
    (h1 : 1 ≤ cellsLen nbBase)
    (h2 : pyTruthy savedVal = true → 2 ≤ cellsLen nbBase) :
    firstInputOf (docFor nbBase ipy pfx savedVal savedParams keys i p)
      = firstInputFor ipy pfx savedVal keys i p := by
  cases hT : pyTruthy savedVal
  · simp only [docFor, hT, Bool.false_eq_true, if_false]
    exact firstInputOf_setFirstInput _ _ h1
  · simp only [docFor, hT, if_true]
    rw [firstInputOf_setLastInput _ _
        (by rw [cellsLen_setFirstInput]; exact h2 hT)]
    exact firstInputOf_setFirstInput _ _ h1

theorem lastInputOf_docFor (nbBase : Notebook) (ipy pfx : String) (savedVal : PyVal)
    (savedParams : String) (keys : List String) (i : Nat) (p : List PyVal)
    (h1 : 1 ≤ cellsLen nbBase) (hT : pyTruthy savedVal = true) :
    lastInputOf (docFor nbBase ipy pfx savedVal savedParams keys i p)
      = footer_template (outfileFor ipy pfx i) savedParams := by
  simp only [docFor, hT, if_true]
  exact lastInputOf_setLastInput _ _ (by rw [cellsLen_setFirstInput]; exact h1)

theorem cellsLen_docFor (nbBase : Notebook) (ipy pfx : String) (savedVal : PyVal)
    (savedParams : String) (keys : List String) (i : Nat) (p : List PyVal) :
    cellsLen (docFor nbBase ipy pfx savedVal savedParams keys i p) = cellsLen nbBase := by
  cases hT : pyTruthy savedVal
  · simp only [docFor, hT, Bool.false_eq_true, if_false, cellsLen_setFirstInput]
  · simp only [docFor, hT, if_true, cellsLen_setLastInput, cellsLen_setFirstInput]

theorem explodeLoop_eq (ipy pfx : String) (savedVal : PyVal) (savedParams : String)
    (keys : List String) (quiet : Bool) (nbBase : Notebook)
    (h2 : pyTruthy savedVal = true → 2 ≤ cellsLen nbBase) :
    ∀ (l : List (List PyVal)) (i : Nat) (nbCur : Notebook),
      (∀ j q, docFor nbCur ipy pfx savedVal savedParams keys j q
          = docFor nbBase ipy pfx savedVal savedParams keys j q) →
      explodeLoop ipy pfx savedVal savedParams keys quiet i l nbCur
        = (((expectedWrites nbBase ipy pfx savedVal savedParams keys i l).map
              Write.doc).getLastD nbCur,
           expectedWrites nbBase ipy pfx savedVal savedParams keys i l,
           expectedPrints ipy pfx quiet i l)
  | [], i, nbCur, _ => rfl
  | p :: rest, i, nbCur, hc => by
    have hnbB := hc i p
    have ih := explodeLoop_eq ipy pfx savedVal savedParams keys quiet nbBase h2
      rest (i + 1) (docFor nbCur ipy pfx savedVal savedParams keys i p)
      (fun j q => by
        rw [hnbB, docFor_docFor nbBase ipy pfx savedVal savedParams keys i j p q h2])
    rw [hnbB] at ih
    simp only [explodeLoop, ih, hnbB, expectedWrites, expectedPrints,
      List.map_cons, List.getLastD_cons]

theorem explode_ok (ev : String → Except String (List (String × PyVal)))
    (nb : Notebook) (c : Cell) (ps : List (String × PyVal)) (savedVal : PyVal)
    (savedItems : List PyVal) (keyed : List (String × List PyVal))
    (ipy pfx : String) (quiet st : Bool)
    (h1 : getFirstCell nb = some c)
    (h2 : startsWithStr "## parameters" (lowerStr c.input) = true)
    (h3 : ev c.input = .ok ps)
    (h4 : (ps.lookup "__save__").getD (.list []) = savedVal)
    (h5 : pyIterate savedVal = some savedItems)
    (h6 : iterateAll (ps.filter (fun kv => kv.1 != "__save__")) = some keyed) :
    explode ev (some (ipy, pfx)) nb quiet st =
      .ok
        (((expectedWrites (if pyTruthy savedVal then appendCell nb c else nb)
            ipy pfx savedVal (savedParamsOf savedItems) (keyed.map Prod.fst) 0
            (pyProduct (keyed.map Prod.snd))).map Write.doc).getLastD
          (if pyTruthy savedVal then appendCell nb c else nb))
        (expectedWrites (if pyTruthy savedVal then appendCell nb c else nb)
          ipy pfx savedVal (savedParamsOf savedItems) (keyed.map Prod.fst) 0
          (pyProduct (keyed.map Prod.snd)))
        (expectedPrints ipy pfx quiet 0 (pyProduct (keyed.map Prod.snd))) := by
  have hlen : pyTruthy savedVal = true →
      2 ≤ cellsLen (if pyTruthy savedVal then appendCell nb c else nb) := by
    intro hT
    rw [hT, if_pos rfl, cellsLen_appendCell nb c (worksheets_ne_nil_of_getFirstCell nb c h1)]
    have := cellsLen_pos_of_getFirstCell nb c h1
    omega
  simp only [explode, h1, h2, h3, h4, h5, h6, Bool.not_true, Bool.false_eq_true,
    if_false, savedParamsOf]
  rw [explodeLoop_eq ipy pfx savedVal
    (", ".intercalate (savedItems.map (fun var => pyStr var ++ "=" ++ pyStr var)))
    (keyed.map Prod.fst) quiet
    (if pyTruthy savedVal then appendCell nb c else nb) hlen
    (pyProduct (keyed.map Prod.snd)) 0
    (if pyTruthy savedVal then appendCell nb c else nb) (fun _ _ => rfl)]

/-! ### Closed-form access to the expected writes and the product -/

theorem length_expectedWrites (nbBase : Notebook) (ipy pfx : String)
    (savedVal : PyVal) (savedParams : String) (keys : List String) :
    ∀ (l : List (List PyVal)) (i : Nat),
      (expectedWrites nbBase ipy pfx savedVal savedParams keys i l).length = l.length
  | [], _ => rfl
  | p :: rest, i => by
    simp only [expectedWrites, List.length_cons,
      length_expectedWrites nbBase ipy pfx savedVal savedParams keys rest (i + 1)]

theorem getElem?_expectedWrites (nbBase : Notebook) (ipy pfx : String)
    (savedVal : PyVal) (savedParams : String) (keys : List String) :
    ∀ (l : List (List PyVal)) (i j : Nat) (p : List PyVal), l[j]? = some p →
      (expectedWrites nbBase ipy pfx savedVal savedParams keys i l)[j]? =
        some ⟨outfileFor ipy pfx (i + j),
          docFor nbBase ipy pfx savedVal savedParams keys (i + j) p⟩
  | [], _, j, p, h => by simp at h
  | q :: rest, i, 0, p, h => by
    simp only [List.getElem?_cons_zero, Option.some.injEq] at h
    subst h
    simp [expectedWrites]
  | q :: rest, i, j + 1, p, h => by
    simp only [List.getElem?_cons_succ] at h
    have hrec := getElem?_expectedWrites nbBase ipy pfx savedVal savedParams keys
      rest (i + 1) j p h
    have harith : i + 1 + j = i + (j + 1) := by omega
    rw [harith] at hrec
    simp only [expectedWrites, List.getElem?_cons_succ, hrec]

theorem flatMap_singleton_map {α β : Type} (f : α → β) :
    ∀ l : List α, (l.flatMap fun x => [f x]) = l.map f
  | [] => rfl
  | x :: rest => by
    simp only [List.flatMap_cons, List.map_cons, List.singleton_append,
      flatMap_singleton_map f rest]

theorem pyProduct_pair (xs ys : List PyVal) :
    pyProduct [xs, ys] = xs.flatMap (fun x => ys.map (fun y => [x, y])) := by
  simp only [pyProduct, List.map_cons, List.map_nil]
  refine congrArg _ (funext fun x => ?_)
  rw [flatMap_singleton_map (fun y => [y]) ys, List.map_map]
  rfl

theorem length_pyProduct_pair (xs ys : List PyVal) :
    (pyProduct [xs, ys]).length = xs.length * ys.length := by
  rw [pyProduct_pair]
  induction xs with
  | nil => simp
  | cons x xs' ih =>
    simp only [List.flatMap_cons, List.length_append, List.length_map, ih,
      List.length_cons, Nat.succ_mul]
    omega

theorem getElem?_pyProduct_pair (xs ys : List PyVal) (a b : Nat) (xa yb : PyVal)
    (ha : xs[a]? = some xa) (hb : ys[b]? = some yb) :
    (pyProduct [xs, ys])[a * ys.length + b]? = some [xa, yb] := by
  rw [pyProduct_pair]
  induction xs generalizing a with
  | nil => simp at ha
  | cons x xs' ih =>
    cases a with
    | zero =>
      simp only [List.getElem?_cons_zero, Option.some.injEq] at ha
      subst ha
      rw [List.flatMap_cons,
        List.getElem?_append_left
          (by
            simp only [Nat.zero_mul, Nat.zero_add, List.length_map]
            exact (List.getElem?_eq_some_iff.mp hb).1)]
      simp [List.getElem?_map, hb]
    | succ a' =>
      simp only [List.getElem?_cons_succ] at ha
      have hk : (a' + 1) * ys.length = a' * ys.length + ys.length := Nat.succ_mul _ _
      rw [List.flatMap_cons,
        List.getElem?_append_right (by simp only [List.length_map]; omega)]
      have hidx : (a' + 1) * ys.length + b - (ys.map fun y => [x, y]).length
          = a' * ys.length + b := by
        simp only [List.length_map]
        omega
      rw [hidx]
      exact ih a' ha

theorem length_mem_pyProduct :
    ∀ (ls : List (List PyVal)) (p : List PyVal), p ∈ pyProduct ls → p.length = ls.length
  | [], p, h => by
    simp only [pyProduct, List.mem_singleton] at h
    subst h
    rfl
  | xs :: rest, p, h => by
    simp only [pyProduct, List.mem_flatMap, List.mem_map] at h
    obtain ⟨x, _, t, ht, rfl⟩ := h
    simp [length_mem_pyProduct rest t ht]

/-! ### Extension stripping for the output basename -/

theorem beginsWith_iff_take (pat : List Char) :
    ∀ s : List Char, beginsWith pat s = true ↔ s.take pat.length = pat := by
  induction pat with
  | nil => intro s; simp [beginsWith]
  | cons a as ih =>
    intro s
    cases s with
    | nil => simp [beginsWith]
    | cons b bs =>
      simp only [beginsWith, Bool.and_eq_true, beq_iff_eq, ih bs,
        List.length_cons, List.take_succ_cons, List.cons.injEq]
      constructor
      · rintro ⟨rfl, h⟩; exact ⟨rfl, h⟩
      · rintro ⟨rfl, h⟩; exact ⟨rfl, h⟩

theorem ipynb_noStraddle (c : Char) (rest : List Char)
    (h : beginsWith ipynbSep ((c :: rest) ++ ipynbSep) = true) :
    beginsWith ipynbSep (c :: rest) = true := by
  rw [beginsWith_iff_take] at h ⊢
  have h6 : ipynbSep.length = 6 := rfl
  rw [h6] at h ⊢
  by_cases hlen : 6 ≤ (c :: rest).length
  · rw [List.take_append_eq_append_take, Nat.sub_eq_zero_of_le hlen,
      List.take_zero, List.append_nil] at h
    exact h
  · exfalso
    rw [List.take_append_eq_append_take,
      List.take_of_length_le (by omega)] at h
    have hd := congrArg (List.drop (c :: rest).length) h
    rw [List.drop_left] at hd
    have h1 : 1 ≤ (c :: rest).length := by simp
    have h5 : (c :: rest).length ≤ 5 := by omega
    generalize hg : (c :: rest).length = n at hd h1 h5
    interval_cases n <;> exact absurd hd (by decide)

theorem stripFirstOcc_append_ipynb :
    ∀ l : List Char, occursIn ipynbSep l = false →
      stripFirstOcc ipynbSep (l ++ ipynbSep) = l
  | [], _ => by decide
  | c :: rest, h => by
    simp only [occursIn, Bool.or_eq_false_iff] at h
    have hb : beginsWith ipynbSep ((c :: rest) ++ ipynbSep) = false := by
      cases hcon : beginsWith ipynbSep ((c :: rest) ++ ipynbSep)
      · rfl
      · exact absurd (ipynb_noStraddle c rest hcon) (by simp [h.1])
    rw [List.cons_append] at hb
    rw [List.cons_append, stripFirstOcc, hb]
    simp only [Bool.false_eq_true, if_false]
    rw [stripFirstOcc_append_ipynb rest h.2]

theorem pyBasename_strip (base : String) (h : occursIn ipynbSep base.data = false) :
    pyBasename (base ++ ".ipynb") = base := by
  have hdata : (base ++ ".ipynb").data = base.data ++ ipynbSep := rfl
  simp only [pyBasename, hdata, stripFirstOcc_append_ipynb base.data h]

/-! ### Round trip of the generated assignment lines -/

theorem digitChar_toNat (d : Nat) (h : d < 10) : (Nat.digitChar d).toNat = 48 + d := by
  interval_cases d <;> decide

theorem digitChar_isDigit (d : Nat) (h : d < 10) : (Nat.digitChar d).isDigit = true := by
  interval_cases d <;> decide

theorem digitsToNat_append_digit (l : List Char) (c : Char) :
    digitsToNat (l ++ [c]) = 10 * digitsToNat l + (c.toNat - 48) := by
  simp [digitsToNat, List.foldl_append]

theorem natDigitsAux_spec :
    ∀ (fuel n : Nat), n ≤ fuel →
      digitsToNat (natDigitsAux fuel n) = n ∧
        ∀ c ∈ natDigitsAux fuel n, c.isDigit = true
  | 0, n, h => by
    have hn : n = 0 := Nat.le_zero.mp h
    subst hn
    exact ⟨rfl, by simp [natDigitsAux]⟩
  | fuel + 1, n, h => by
    by_cases hz : n = 0
    · subst hz
      exact ⟨rfl, by simp [natDigitsAux]⟩
    · have hdiv : n / 10 ≤ fuel := by
        have := Nat.div_lt_self (Nat.pos_of_ne_zero hz) (by omega : 1 < 10)
        omega
      obtain ⟨ih1, ih2⟩ := natDigitsAux_spec fuel (n / 10) hdiv
      have hmod : n % 10 < 10 := Nat.mod_lt n (by omega)
      simp only [natDigitsAux, hz, if_false]
      constructor
      · rw [digitsToNat_append_digit, ih1, digitChar_toNat (n % 10) hmod]
        omega
      · intro c hc
        rcases List.mem_append.mp hc with hc | hc
        · exact ih2 c hc
        · have : c = Nat.digitChar (n % 10) := by simpa using hc
          subst this
          exact digitChar_isDigit _ hmod

theorem natDigits_spec (n : Nat) :
    digitsToNat (natDigits n) = n ∧ natDigits n ≠ [] ∧
      ∀ c ∈ natDigits n, c.isDigit = true := by
  by_cases hz : n = 0
  · subst hz
    exact ⟨rfl, by simp [natDigits], by decide⟩
  · simp only [natDigits, hz, if_false]
    obtain ⟨h1, h2⟩ := natDigitsAux_spec (n + 1) n (by omega)
    refine ⟨h1, ?_, h2⟩
    simp [natDigitsAux, hz]

theorem parseIntLit_natDigits (m : Nat) :
    parseIntLit (natDigits m) = some (.int m) := by
  obtain ⟨h1, h2, h3⟩ := natDigits_spec m
  rcases hd : natDigits m with _ | ⟨c, cs⟩
  · exact absurd hd h2
  · have hcd : c.isDigit = true := h3 c (by rw [hd]; simp)
    have hcne : ¬(c = '-') := by
      intro hcon
      rw [hcon] at hcd
      exact absurd hcd (by decide)
    rw [hd] at h1
    have hall : (c :: cs).all Char.isDigit = true := by
      rw [List.all_eq_true]
      intro x hx
      exact h3 x (by rw [hd]; exact hx)
    simp only [parseIntLit, hcne, if_false, hall, Bool.true_and, if_true, h1]

theorem flatten_map_singleton {α : Type} : ∀ l : List α, (l.map fun x => [x]).flatten = l
  | [] => rfl
  | x :: rest => by simp [flatten_map_singleton rest]

theorem simpleLitChar_facts (c : Char) (h : simpleLitChar c = true) :
    c ≠ '\'' ∧ c ≠ '\\' ∧ c ≠ '\n' ∧ c ≠ '\t' ∧ c ≠ '\r' := by
  simp only [simpleLitChar, Bool.and_eq_true, bne_iff_ne] at h
  exact ⟨h.1.1.1.1, h.1.1.1.2, h.1.1.2, h.1.2, h.2⟩

theorem strRepr_simple (s : String) (h : s.data.all simpleLitChar = true) :
    (strRepr s).data = '\'' :: s.data ++ ['\''] := by
  have hs := List.all_eq_true.mp h
  have hq : s.data.contains '\'' = false := by
    cases hc : s.data.contains '\''
    · rfl
    · exfalso
      have hmem : '\'' ∈ s.data := by
        have := List.elem_iff.mp hc
        exact this
      have := (simpleLitChar_facts _ (hs _ hmem)).1
      exact this rfl
  have hmap : s.data.map (escapeChar '\'') = s.data.map (fun c => [c]) :=
    List.map_congr_left (fun c hc => by
      obtain ⟨e1, e2, e3, e4, e5⟩ := simpleLitChar_facts c (hs c hc)
      simp [escapeChar, e1, e2, e3, e4, e5])
  simp only [strRepr, hq, Bool.false_and, Bool.false_eq_true, if_false]
  rw [hmap, flatten_map_singleton]

theorem parseStrLit_roundtrip (s : String) (h : s.data.all simpleLitChar = true) :
    parseStrLit ('\'' :: (s.data ++ ['\''])) = some (.str s) := by
  simp only [parseStrLit, List.getLast?_concat, List.dropLast_concat, h, and_true,
    if_true, and_self]

theorem takeWhile_append_first {α : Type} (p : α → Bool) (d : α) (hd : p d = false) :
    ∀ (l t : List α), (∀ c ∈ l, p c = true) → (l ++ d :: t).takeWhile p = l
  | [], t, _ => by simp [List.takeWhile_cons, hd]
  | c :: rest, t, hall => by
    simp only [List.cons_append, List.takeWhile_cons, hall c (by simp), if_true]
    rw [takeWhile_append_first p d hd rest t (fun x hx => hall x (by simp [hx]))]

theorem parseLit_pyRepr_int (n : Int) : parseLit ((intRepr n).data) = some (.int n) := by
  cases n with
  | ofNat m =>
    show parseLit (natDigits m) = some (.int (Int.ofNat m))
    obtain ⟨_, h2, h3⟩ := natDigits_spec m
    rcases hd : natDigits m with _ | ⟨c, cs⟩
    · exact absurd hd h2
    · have hcd : c.isDigit = true := h3 c (by rw [hd]; simp)
      have hq : ¬(c = '\'') := by
        rintro rfl
        exact absurd hcd (by decide)
      have hpi := parseIntLit_natDigits m
      rw [hd] at hpi
      simp only [parseLit, hq, if_false, hpi]
      rfl
  | negSucc m =>
    show parseLit ('-' :: natDigits (m + 1)) = some (.int (Int.negSucc m))
    obtain ⟨h1, h2, h3⟩ := natDigits_spec (m + 1)
    have hem : (natDigits (m + 1)).isEmpty = false := by
      rcases hd : natDigits (m + 1) with _ | ⟨c, cs⟩
      · exact absurd hd h2
      · rfl
    have hall : (natDigits (m + 1)).all Char.isDigit = true := List.all_eq_true.mpr h3
    simp only [parseLit, parseIntLit, reduceIte, hem, Bool.not_false, hall,
      Bool.and_self, if_true, h1, Option.some.injEq]
    rw [if_neg (by decide : ¬(('-' : Char) = '\''))]
    simp only [Option.some.injEq, PyVal.int.injEq]
    rw [Int.negSucc_eq]
    push_cast
    ring

theorem parseLit_pyRepr_str (s : String) (h : s.data.all simpleLitChar = true) :
    parseLit ((strRepr s).data) = some (.str s) := by
  rw [strRepr_simple s h]
  have hrt := parseStrLit_roundtrip s h
  rw [List.cons_append] at *
  simp only [parseLit, reduceIte]
  exact hrt

theorem parseAssign_roundtrip (k : String) (v : PyVal)
    (hk : isIdentName k = true) (hv : reparsable v = true) :
    parseAssign (assignLine k v) = some (k, v) := by
  simp only [isIdentName, Bool.and_eq_true, Bool.not_eq_true'] at hk
  have hkid : ∀ c ∈ k.data, isIdentChar c = true := List.all_eq_true.mp hk.1.2
  have hkne : k.data.isEmpty = false := hk.1.1
  have hdata : (assignLine k v).data = k.data ++ (' ' :: '=' :: ' ' :: (pyRepr v).data) := by
    show (k.data ++ [' ', '=', ' ']) ++ (pyRepr v).data = _
    rw [List.append_assoc]
    rfl
  simp only [parseAssign, hdata]
  rw [takeWhile_append_first isIdentChar ' ' (by decide) k.data _ hkid]
  simp only [hkne, Bool.false_eq_true, if_false, List.drop_left]
  have hlit : parseLit ((pyRepr v).data) = some (k, v).2 := by
    cases v with
    | int n => exact parseLit_pyRepr_int n
    | str s => exact parseLit_pyRepr_str s (by simpa [reparsable] using hv)
    | list vs => exact absurd hv (by simp [reparsable])
  rw [hlit]
  rfl

/-! ### Helpers giving observable access to a successful call's writes -/

theorem explode_writes_length (ev : String → Except String (List (String × PyVal)))
    (nb : Notebook) (c : Cell) (ps : List (String × PyVal)) (savedVal : PyVal)
    (savedItems : List PyVal) (keyed : List (String × List PyVal))
    (ipy pfx : String) (quiet st : Bool)
    (h1 : getFirstCell nb = some c)
    (h2 : startsWithStr "## parameters" (lowerStr c.input) = true)
    (h3 : ev c.input = .ok ps)
    (h4 : (ps.lookup "__save__").getD (.list []) = savedVal)
    (h5 : pyIterate savedVal = some savedItems)
    (h6 : iterateAll (ps.filter (fun kv => kv.1 != "__save__")) = some keyed) :
    (writesOf (explode ev (some (ipy, pfx)) nb quiet st)).length
      = (pyProduct (keyed.map Prod.snd)).length := by
  rw [explode_ok ev nb c ps savedVal savedItems keyed ipy pfx quiet st h1 h2 h3 h4 h5 h6]
  exact length_expectedWrites _ _ _ _ _ _ _ _

theorem explode_writes_getElem (ev : String → Except String (List (String × PyVal)))
    (nb : Notebook) (c : Cell) (ps : List (String × PyVal)) (savedVal : PyVal)
    (savedItems : List PyVal) (keyed : List (String × List PyVal))
    (ipy pfx : String) (quiet st : Bool)
    (h1 : getFirstCell nb = some c)
    (h2 : startsWithStr "## parameters" (lowerStr c.input) = true)
    (h3 : ev c.input = .ok ps)
    (h4 : (ps.lookup "__save__").getD (.list []) = savedVal)
    (h5 : pyIterate savedVal = some savedItems)
    (h6 : iterateAll (ps.filter (fun kv => kv.1 != "__save__")) = some keyed)
    (j : Nat) (p : List PyVal)
    (hp : (pyProduct (keyed.map Prod.snd))[j]? = some p) :
    (writesOf (explode ev (some (ipy, pfx)) nb quiet st))[j]? =
      some ⟨outfileFor ipy pfx j,
        docFor (if pyTruthy savedVal then appendCell nb c else nb) ipy pfx savedVal
          (savedParamsOf savedItems) (keyed.map Prod.fst) j p⟩ := by
  rw [explode_ok ev nb c ps savedVal savedItems keyed ipy pfx quiet st h1 h2 h3 h4 h5 h6]
  have h := getElem?_expectedWrites (if pyTruthy savedVal then appendCell nb c else nb)
    ipy pfx savedVal (savedParamsOf savedItems) (keyed.map Prod.fst)
    (pyProduct (keyed.map Prod.snd)) 0 j p hp
  simpa using h

theorem cellsLen_base (nb : Notebook) (c : Cell) (savedVal : PyVal)
    (h1 : getFirstCell nb = some c) :
    1 ≤ cellsLen (if pyTruthy savedVal then appendCell nb c else nb) ∧
      (pyTruthy savedVal = true →
        2 ≤ cellsLen (if pyTruthy savedVal then appendCell nb c else nb)) := by
  have hpos := cellsLen_pos_of_getFirstCell nb c h1
  have hne := worksheets_ne_nil_of_getFirstCell nb c h1
  cases hT : pyTruthy savedVal
  · simp only [Bool.false_eq_true, if_false]
    exact ⟨hpos, fun h => absurd h (by simp)⟩
  · simp only [if_true, cellsLen_appendCell nb c hne]
    exact ⟨by omega, fun _ => by omega⟩

theorem getLastD_congr {α : Type} (d1 d2 : α) :
    ∀ l : List α, l ≠ [] → l.getLastD d1 = l.getLastD d2
  | [], h => absurd rfl h
  | _ :: _, _ => by simp only [List.getLastD_cons]

theorem getLastD_map_fd {α β : Type} (f : α → β) :
    ∀ (l : List α) (d : α), (l.map f).getLastD (f d) = f (l.getLastD d)
  | [], _ => rfl
  | x :: rest, d => by
    simp only [List.map_cons, List.getLastD_cons]
    exact getLastD_map_fd f rest x

theorem getLastD_prop {α : Type} (P : α → Prop) :
    ∀ (l : List α) (d : α), (∀ x ∈ l, P x) → P d → P (l.getLastD d)
  | [], d, _, hd => hd
  | x :: rest, d, hall, _ => by
    rw [List.getLastD_cons]
    exact getLastD_prop P rest x (fun y hy => hall y (by simp [hy])) (hall x (by simp))

theorem mem_expectedWrites (nbBase : Notebook) (ipy pfx : String) (savedVal : PyVal)
    (savedParams : String) (keys : List String) :
    ∀ (l : List (List PyVal)) (i : Nat) (w : Write),
      w ∈ expectedWrites nbBase ipy pfx savedVal savedParams keys i l →
      ∃ i' p, w = ⟨outfileFor ipy pfx i',
        docFor nbBase ipy pfx savedVal savedParams keys i' p⟩
  | [], _, w, h => by simp [expectedWrites] at h
  | p :: rest, i, w, h => by
    rcases List.mem_cons.mp h with h | h
    · exact ⟨i, p, h⟩
    · exact mem_expectedWrites nbBase ipy pfx savedVal savedParams keys rest (i + 1) w h

/-! ### The claims -/

/-- C2: for every notebook whose first cell's source does not begin
(case-insensitively) with the marker line `## Parameters`, `explode` takes
the warn-and-return path (`noParams`, the modelled log-warning outcome)
and writes no file; no exception is raised — the call is a no-op. -/
theorem C2_no_marker_noop (ev : String → Except String (List (String × PyVal)))
    (g : Option (String × String)) (nb : Notebook) (c : Cell) (quiet st : Bool)
    (h1 : getFirstCell nb = some c)
    (h2 : startsWithStr "## parameters" (lowerStr c.input) = false) :
    explode ev g nb quiet st = .noParams ∧
      writesOf (explode ev g nb quiet st) = [] := by
  have h : explode ev g nb quiet st = .noParams := by
    simp only [explode, h1, h2, Bool.not_false, if_true]
  exact ⟨h, by rw [h]; rfl⟩

/-- Witness for C2 on a concrete notebook whose first cell is
`print('hello')`. -/
theorem C2_witness :
    explode evSample none nbPlain false false = .noParams ∧
      writesOf (explode evSample none nbPlain false false) = [] :=
  C2_no_marker_noop evSample none nbPlain ⟨"print('hello')"⟩ false false rfl rfl

/-- C8: when the first cell carries the marker but its execution as code
fails, the failure propagates uncaught out of `explode` (outcome
`evalError` with the raised message) and, evaluation preceding the write
loop, no output file has been written at that point. -/
theorem C8_eval_failure_propagates (ev : String → Except String (List (String × PyVal)))
    (g : Option (String × String)) (nb : Notebook) (c : Cell) (e : String)
    (quiet st : Bool)
    (h1 : getFirstCell nb = some c)
    (h2 : startsWithStr "## parameters" (lowerStr c.input) = true)
    (h3 : ev c.input = .error e) :
    explode ev g nb quiet st = .evalError e ∧
      writesOf (explode ev g nb quiet st) = [] := by
  have h : explode ev g nb quiet st = .evalError e := by
    simp only [explode, h1, h2, h3, Bool.not_true, Bool.false_eq_true, if_false]
  exact ⟨h, by rw [h]; rfl⟩

/-- Witness for C8: a marker-bearing notebook whose first-cell execution
raises a NameError. -/
theorem C8_witness :
    explode evFail none nbSample false false =
      .evalError "NameError: name 'undefined_thing' is not defined" ∧
      writesOf (explode evFail none nbSample false false) = [] :=
  C8_eval_failure_propagates evFail none nbSample
    ⟨"## Parameters\nx = [1, 2]\ny = ['a', 'b']"⟩
    "NameError: name 'undefined_thing' is not defined" false false rfl rfl rfl

/-- C9: two runs of the explosion over the same notebook with the same
globals agree step for step as soon as the first cell's evaluation is
deterministic (both runs obtain the same bindings): the outcomes — the
write list (filenames and serialized documents, hence the bytes on disk)
and the printed filenames — are identical. -/
theorem C9_two_run_determinism (ev1 ev2 : String → Except String (List (String × PyVal)))
    (g : Option (String × String)) (nb : Notebook) (quiet st : Bool)
    (h : ∀ c, getFirstCell nb = some c → ev1 c.input = ev2 c.input) :
    explode ev1 g nb quiet st = explode ev2 g nb quiet st := by
  cases hg : getFirstCell nb with
  | none => simp only [explode, hg]
  | some c => simp only [explode, hg, h c hg]

/-- Witness for C9: the two differently-defined oracles `evSample` and
`evSampleAlt` agree on `nbSample`'s first cell, so both runs coincide. -/
theorem C9_witness :
    explode evSample (some ("sample.ipynb", "")) nbSample false false =
      explode evSampleAlt (some ("sample.ipynb", "")) nbSample false false :=
  C9_two_run_determinism evSample evSampleAlt (some ("sample.ipynb", "")) nbSample
    false false
    (fun c hc => by
      rw [show getFirstCell nbSample
          = some ⟨"## Parameters\nx = [1, 2]\ny = ['a', 'b']"⟩ from rfl] at hc
      cases hc
      rfl)

/-- C10 counterexample: with the module globals unbound (`none`), a
marker-bearing notebook whose declared parameter ranges over the empty
sequence makes the combination loop body never run, so the call returns
normally (`ok`, zero writes) instead of raising a NameError — refuting
the claim's universal "the call raises a NameError". -/
theorem C10_counterexample :
    explode evEmptySeq none nbEmptySeq false false = .ok nbEmptySeq [] [] ∧
      explode evEmptySeq none nbEmptySeq false false ≠ .nameError :=
  ⟨rfl, fun h => ExplodeRes.noConfusion h⟩

/-- C10 (amended): the output names are computed from the module globals
`ipynb`/`args.prefix` (modelled by `explode`'s `globalsEnv` argument, not
by its notebook parameter); for every call made while these globals are
unbound whose combination product is non-empty, the call raises a
NameError after the parameter evaluation and before writing any file;
when the product is empty the call instead returns without raising and
without writing. -/
theorem C10_unbound_globals_nameError (ev : String → Except String (List (String × PyVal)))
    (nb : Notebook) (c : Cell) (ps : List (String × PyVal)) (savedVal : PyVal)
    (savedItems : List PyVal) (keyed : List (String × List PyVal)) (quiet st : Bool)
    (h1 : getFirstCell nb = some c)
    (h2 : startsWithStr "## parameters" (lowerStr c.input) = true)
    (h3 : ev c.input = .ok ps)
    (h4 : (ps.lookup "__save__").getD (.list []) = savedVal)
    (h5 : pyIterate savedVal = some savedItems)
    (h6 : iterateAll (ps.filter (fun kv => kv.1 != "__save__")) = some keyed)
    (hne : pyProduct (keyed.map Prod.snd) ≠ []) :
    explode ev none nb quiet st = .nameError ∧
      writesOf (explode ev none nb quiet st) = [] := by
  have hE : (pyProduct (keyed.map Prod.snd)).isEmpty = false := by
    rcases hP : pyProduct (keyed.map Prod.snd) with _ | ⟨q, qs⟩
    · exact absurd hP hne
    · rfl
  have h : explode ev none nb quiet st = .nameError := by
    simp only [explode, h1, h2, h3, h4, h5, h6, Bool.not_true, Bool.false_eq_true,
      if_false, hE]
  exact ⟨h, by rw [h]; rfl⟩

/-- Witness for the amended C10: `nbSample` under unbound globals hits the
NameError with nothing written. -/
theorem C10_witness :
    explode evSample none nbSample false false = .nameError ∧
      writesOf (explode evSample none nbSample false false) = [] :=
  C10_unbound_globals_nameError evSample nbSample
    ⟨"## Parameters\nx = [1, 2]\ny = ['a', 'b']"⟩
    [("x", .list [.int 1, .int 2]), ("y", .list [.str "a", .str "b"])]
    (.list []) []
    [("x", [.int 1, .int 2]), ("y", [.str "a", .str "b"])]
    false false rfl rfl rfl rfl rfl rfl (List.cons_ne_nil _ _)

/-- C3 counterexample: exploding the concrete `nbSample` (parameters
`x` over `[1, 2]`, `y` over `['a', 'b']`) returns with the **original
notebook object mutated**: the first cell of the notebook `explode` was
given no longer holds its original source but the last combination's
generated text — refuting "the source document is cloned before mutation,
so the original parsed notebook is never corrupted (its first cell ...
unchanged after explode returns)". -/
theorem C3_counterexample :
    finalNbOf (explode evSample (some ("sample.ipynb", "")) nbSample false false)
        ≠ some nbSample ∧
      (finalNbOf (explode evSample (some ("sample.ipynb", "")) nbSample false false)).map
          firstInputOf
        = some "## Parameterized by sample.ipynb\nx = 2\ny = 'b'" := by
  constructor
  · decide
  · decide

/-- C3 (amended): `explode` does not clone the notebook; it mutates the
passed document in place, serializing it immediately after each
per-combination mutation (so every file is correct at the moment it is
written).  Consequently, after any call that wrote at least one file, the
original notebook object equals the document of the **last** write: its
first cell holds the last combination's generated source, and when a
save-list was declared a trailing save cell has been appended. -/
theorem C3_inplace_mutation (ev : String → Except String (List (String × PyVal)))
    (nb : Notebook) (c : Cell) (ps : List (String × PyVal)) (savedVal : PyVal)
    (savedItems : List PyVal) (keyed : List (String × List PyVal))
    (ipy pfx : String) (quiet st : Bool)
    (h1 : getFirstCell nb = some c)
    (h2 : startsWithStr "## parameters" (lowerStr c.input) = true)
    (h3 : ev c.input = .ok ps)
    (h4 : (ps.lookup "__save__").getD (.list []) = savedVal)
    (h5 : pyIterate savedVal = some savedItems)
    (h6 : iterateAll (ps.filter (fun kv => kv.1 != "__save__")) = some keyed)
    (hne : pyProduct (keyed.map Prod.snd) ≠ []) :
    writesOf (explode ev (some (ipy, pfx)) nb quiet st) ≠ [] ∧
      finalNbOf (explode ev (some (ipy, pfx)) nb quiet st) =
        some (((writesOf (explode ev (some (ipy, pfx)) nb quiet st)).getLastD
          ⟨"", nb⟩).doc) := by
  rw [explode_ok ev nb c ps savedVal savedItems keyed ipy pfx quiet st h1 h2 h3 h4 h5 h6]
  simp only [writesOf, finalNbOf]
  have hlen := length_expectedWrites (if pyTruthy savedVal then appendCell nb c else nb)
    ipy pfx savedVal (savedParamsOf savedItems) (keyed.map Prod.fst)
    (pyProduct (keyed.map Prod.snd)) 0
  have hewne : expectedWrites (if pyTruthy savedVal then appendCell nb c else nb)
      ipy pfx savedVal (savedParamsOf savedItems) (keyed.map Prod.fst) 0
      (pyProduct (keyed.map Prod.snd)) ≠ [] := by
    intro hcon
    rw [hcon] at hlen
    exact hne (List.length_eq_zero.mp hlen.symm)
  refine ⟨hewne, ?_⟩
  congr 1
  rw [getLastD_congr _ (Write.doc ⟨"", nb⟩) _
    (fun hcon => hewne (List.map_eq_nil_iff.mp hcon))]
  rw [getLastD_map_fd]

/-- Witness for the amended C3 on `nbSample`. -/
theorem C3_witness :
    writesOf (explode evSample (some ("sample.ipynb", "")) nbSample false false) ≠ [] ∧
      finalNbOf (explode evSample (some ("sample.ipynb", "")) nbSample false false) =
        some (((writesOf (explode evSample (some ("sample.ipynb", "")) nbSample
          false false)).getLastD ⟨"", nbSample⟩).doc) :=
  C3_inplace_mutation evSample nbSample
    ⟨"## Parameters\nx = [1, 2]\ny = ['a', 'b']"⟩
    [("x", .list [.int 1, .int 2]), ("y", .list [.str "a", .str "b"])]
    (.list []) []
    [("x", [.int 1, .int 2]), ("y", [.str "a", .str "b"])]
    "sample.ipynb" "" false false rfl rfl rfl rfl rfl rfl (List.cons_ne_nil _ _)

/-- C1: for a notebook whose first cell carries the marker and declares
exactly the parameters `nx` over `xs` (k1 values) and `ny` over `ys`
(k2 values), `explode` performs exactly `k1 * k2` file writes, and the
write at 0-based index `a * k2 + b` (first-declared parameter varying
slowest, last-declared fastest — lexicographic product order) is the file
for combination `(xs[a], ys[b])`, named with that index. -/
theorem C1_product_count_and_order (ev : String → Except String (List (String × PyVal)))
    (nb : Notebook) (c : Cell) (nx ny : String) (vx vy : PyVal)
    (xs ys : List PyVal) (ipy pfx : String) (quiet st : Bool)
    (h1 : getFirstCell nb = some c)
    (h2 : startsWithStr "## parameters" (lowerStr c.input) = true)
    (h3 : ev c.input = .ok [(nx, vx), (ny, vy)])
    (hnx : nx ≠ "__save__") (hny : ny ≠ "__save__")
    (hvx : pyIterate vx = some xs) (hvy : pyIterate vy = some ys) :
    (writesOf (explode ev (some (ipy, pfx)) nb quiet st)).length
        = xs.length * ys.length ∧
      ∀ a b xa yb, xs[a]? = some xa → ys[b]? = some yb →
        (writesOf (explode ev (some (ipy, pfx)) nb quiet st))[a * ys.length + b]? =
          some ⟨outfileFor ipy pfx (a * ys.length + b),
            docFor nb ipy pfx (.list []) (savedParamsOf []) [nx, ny]
              (a * ys.length + b) [xa, yb]⟩ := by
  have hb1 : (("__save__" : String) == nx) = false :=
    beq_eq_false_iff_ne.mpr (fun h => hnx h.symm)
  have hb2 : (("__save__" : String) == ny) = false :=
    beq_eq_false_iff_ne.mpr (fun h => hny h.symm)
  have hlookup : (List.lookup "__save__" [(nx, vx), (ny, vy)]).getD (.list [])
      = PyVal.list [] := by
    simp [List.lookup, hb1, hb2]
  have hf1 : (nx != "__save__") = true := bne_iff_ne.mpr hnx
  have hf2 : (ny != "__save__") = true := bne_iff_ne.mpr hny
  have hfilter : List.filter (fun kv => kv.1 != "__save__") [(nx, vx), (ny, vy)]
      = [(nx, vx), (ny, vy)] := by
    simp [List.filter, hf1, hf2]
  have h6 : iterateAll (List.filter (fun kv => kv.1 != "__save__") [(nx, vx), (ny, vy)])
      = some [(nx, xs), (ny, ys)] := by
    rw [hfilter]
    simp [iterateAll, hvx, hvy]
  constructor
  · have hl := explode_writes_length ev nb c [(nx, vx), (ny, vy)] (.list []) []
      [(nx, xs), (ny, ys)] ipy pfx quiet st h1 h2 h3 hlookup rfl h6
    rw [hl]
    exact length_pyProduct_pair xs ys
  · intro a b xa yb ha hb
    have hcombo := getElem?_pyProduct_pair xs ys a b xa yb ha hb
    have hw := explode_writes_getElem ev nb c [(nx, vx), (ny, vy)] (.list []) []
      [(nx, xs), (ny, ys)] ipy pfx quiet st h1 h2 h3 hlookup rfl h6
      (a * ys.length + b) [xa, yb] hcombo
    simpa [pyTruthy] using hw

/-- Witness for C1 on `nbSample` (`x` over 2 values, `y` over 2 values):
4 writes, and the write at index `1 * 2 + 0 = 2` is combination
`(x = 2, y = 'a')` in file `sample0002.ipynb`. -/
theorem C1_witness :
    (writesOf (explode evSample (some ("sample.ipynb", "")) nbSample false false)).length
        = 4 ∧
      (writesOf (explode evSample (some ("sample.ipynb", "")) nbSample false false))[2]? =
        some ⟨outfileFor "sample.ipynb" "" 2,
          docFor nbSample "sample.ipynb" "" (.list []) (savedParamsOf []) ["x", "y"] 2
            [.int 2, .str "a"]⟩ := by
  have h := C1_product_count_and_order evSample nbSample
    ⟨"## Parameters\nx = [1, 2]\ny = ['a', 'b']"⟩ "x" "y"
    (.list [.int 1, .int 2]) (.list [.str "a", .str "b"])
    [.int 1, .int 2] [.str "a", .str "b"] "sample.ipynb" "" false false
    rfl rfl rfl (by decide) (by decide) rfl rfl
  refine ⟨h.1, ?_⟩
  have h2 := h.2 1 0 (.int 2) (.str "a") rfl rfl
  simpa using h2

/-- C4: each generated output's rewritten first cell is the header line
naming the source notebook followed by exactly one assignment line
`name = repr(value)` per declared parameter, in declared order, the values
being that output's product-tuple components (the tuple has exactly one
component per declared parameter), followed by the loader only when a
save-list was declared; and for re-parsable values the assignment line
parses back to exactly the bound name and original value (round trip). -/
theorem C4_first_cell_assignments (ev : String → Except String (List (String × PyVal)))
    (nb : Notebook) (c : Cell) (ps : List (String × PyVal)) (savedVal : PyVal)
    (savedItems : List PyVal) (keyed : List (String × List PyVal))
    (ipy pfx : String) (quiet st : Bool)
    (h1 : getFirstCell nb = some c)
    (h2 : startsWithStr "## parameters" (lowerStr c.input) = true)
    (h3 : ev c.input = .ok ps)
    (h4 : (ps.lookup "__save__").getD (.list []) = savedVal)
    (h5 : pyIterate savedVal = some savedItems)
    (h6 : iterateAll (ps.filter (fun kv => kv.1 != "__save__")) = some keyed) :
    (∀ j p, (pyProduct (keyed.map Prod.snd))[j]? = some p →
      p.length = keyed.length ∧
      (writesOf (explode ev (some (ipy, pfx)) nb quiet st))[j]? =
        some ⟨outfileFor ipy pfx j,
          docFor (if pyTruthy savedVal then appendCell nb c else nb) ipy pfx savedVal
            (savedParamsOf savedItems) (keyed.map Prod.fst) j p⟩ ∧
      firstInputOf (docFor (if pyTruthy savedVal then appendCell nb c else nb)
          ipy pfx savedVal (savedParamsOf savedItems) (keyed.map Prod.fst) j p) =
        headerFor ipy
          ++ "\n".intercalate
              (((keyed.map Prod.fst).zip p).map (fun kv => assignLine kv.1 kv.2))
          ++ (if (pyLen savedVal).getD 0 != 0 then
                loader_template (outfileFor ipy pfx j) (pyStr savedVal)
              else "")) ∧
    (∀ k v, isIdentName k = true → reparsable v = true →
      parseAssign (assignLine k v) = some (k, v)) := by
  obtain ⟨hc1, hc2⟩ := cellsLen_base nb c savedVal h1
  constructor
  · intro j p hp
    refine ⟨?_, explode_writes_getElem ev nb c ps savedVal savedItems keyed ipy pfx
      quiet st h1 h2 h3 h4 h5 h6 j p hp, ?_⟩
    · obtain ⟨hlt, hget⟩ := List.getElem?_eq_some_iff.mp hp
      have hm : p ∈ pyProduct (keyed.map Prod.snd) := hget ▸ List.getElem_mem hlt
      have hlen := length_mem_pyProduct (keyed.map Prod.snd) p hm
      simpa using hlen
    · rw [firstInputOf_docFor _ _ _ _ _ _ _ _ hc1 hc2]
      rfl
  · exact fun k v hk hv => parseAssign_roundtrip k v hk hv

/-- Witness for C4: the `j = 1` output of `nbSample` (combination
`(x = 1, y = 'b')`), and the round trip of `x = 1`. -/
theorem C4_witness :
    (writesOf (explode evSample (some ("sample.ipynb", "")) nbSample false false))[1]? =
      some ⟨outfileFor "sample.ipynb" "" 1,
        docFor nbSample "sample.ipynb" "" (.list []) (savedParamsOf []) ["x", "y"] 1
          [.int 1, .str "b"]⟩ ∧
    firstInputOf (docFor nbSample "sample.ipynb" "" (.list []) (savedParamsOf [])
        ["x", "y"] 1 [.int 1, .str "b"]) =
      headerFor "sample.ipynb"
        ++ "\n".intercalate [assignLine "x" (.int 1), assignLine "y" (.str "b")] ∧
    parseAssign (assignLine "x" (.int 1)) = some ("x", .int 1) := by
  have h := C4_first_cell_assignments evSample nbSample
    ⟨"## Parameters\nx = [1, 2]\ny = ['a', 'b']"⟩
    [("x", .list [.int 1, .int 2]), ("y", .list [.str "a", .str "b"])]
    (.list []) []
    [("x", [.int 1, .int 2]), ("y", [.str "a", .str "b"])]
    "sample.ipynb" "" false false rfl rfl rfl rfl rfl rfl
  have hj := h.1 1 [.int 1, .str "b"] rfl
  refine ⟨by simpa [pyTruthy] using hj.2.1, ?_, h.2 "x" (.int 1) (by decide) (by decide)⟩
  have := hj.2.2
  simpa [pyTruthy, pyLen] using this

/-- C5: when no save-list is declared (`__save__` absent or bound to the
empty list), no trailing save cell is appended — the final notebook and
every written document keep the input's cell count — and no loader
snippet appears: each output's first cell is exactly the header plus the
assignment lines. -/
theorem C5_no_save_list (ev : String → Except String (List (String × PyVal)))
    (nb : Notebook) (c : Cell) (ps : List (String × PyVal))
    (keyed : List (String × List PyVal)) (ipy pfx : String) (quiet st : Bool)
    (h1 : getFirstCell nb = some c)
    (h2 : startsWithStr "## parameters" (lowerStr c.input) = true)
    (h3 : ev c.input = .ok ps)
    (h4 : (ps.lookup "__save__").getD (.list []) = .list [])
    (h6 : iterateAll (ps.filter (fun kv => kv.1 != "__save__")) = some keyed) :
    (finalNbOf (explode ev (some (ipy, pfx)) nb quiet st)).map cellsLen
        = some (cellsLen nb) ∧
      ∀ (j : Nat) (p : List PyVal), (pyProduct (keyed.map Prod.snd))[j]? = some p →
        ∃ w : Write, (writesOf (explode ev (some (ipy, pfx)) nb quiet st))[j]? = some w ∧
          cellsLen w.doc = cellsLen nb ∧
          firstInputOf w.doc =
            headerFor ipy ++ "\n".intercalate
              (((keyed.map Prod.fst).zip p).map (fun kv => assignLine kv.1 kv.2)) := by
  have hc1 : 1 ≤ cellsLen nb := cellsLen_pos_of_getFirstCell nb c h1
  constructor
  · rw [explode_ok ev nb c ps (.list []) [] keyed ipy pfx quiet st h1 h2 h3 h4 rfl h6]
    simp only [finalNbOf, Option.map_some', Option.some.injEq, pyTruthy,
      List.isEmpty_nil, Bool.not_true, Bool.false_eq_true, if_false]
    refine getLastD_prop (fun x => cellsLen x = cellsLen nb) _ _ ?_ rfl
    intro x hx
    rw [List.mem_map] at hx
    obtain ⟨w, hw, rfl⟩ := hx
    obtain ⟨i', p', rfl⟩ := mem_expectedWrites nb ipy pfx (.list [])
      (savedParamsOf []) (keyed.map Prod.fst) _ 0 w hw
    exact cellsLen_docFor nb ipy pfx (.list []) (savedParamsOf [])
      (keyed.map Prod.fst) i' p'
  · intro j p hp
    have hw := explode_writes_getElem ev nb c ps (.list []) [] keyed ipy pfx quiet st
      h1 h2 h3 h4 rfl h6 j p hp
    refine ⟨⟨outfileFor ipy pfx j,
      docFor nb ipy pfx (.list []) (savedParamsOf []) (keyed.map Prod.fst) j p⟩,
      by simpa [pyTruthy] using hw, ?_, ?_⟩
    · exact cellsLen_docFor nb ipy pfx (.list []) (savedParamsOf [])
        (keyed.map Prod.fst) j p
    · rw [firstInputOf_docFor _ _ _ _ _ _ _ _ hc1 (by simp [pyTruthy])]
      simp [firstInputFor, pyLen]

/-- Witness for C5 on `nbSample` (no `__save__`): cell counts preserved
and the `j = 0` output's first cell is exactly header + assignments. -/
theorem C5_witness :
    (finalNbOf (explode evSample (some ("sample.ipynb", "")) nbSample false false)).map
        cellsLen = some (cellsLen nbSample) ∧
      ∃ w : Write,
        (writesOf (explode evSample (some ("sample.ipynb", "")) nbSample false false))[0]?
          = some w ∧
        cellsLen w.doc = cellsLen nbSample ∧
        firstInputOf w.doc =
          headerFor "sample.ipynb"
            ++ "\n".intercalate [assignLine "x" (.int 1), assignLine "y" (.str "a")] := by
  have h := C5_no_save_list evSample nbSample
    ⟨"## Parameters\nx = [1, 2]\ny = ['a', 'b']"⟩
    [("x", .list [.int 1, .int 2]), ("y", .list [.str "a", .str "b"])]
    [("x", [.int 1, .int 2]), ("y", [.str "a", .str "b"])]
    "sample.ipynb" "" false false rfl rfl rfl rfl rfl
  refine ⟨h.1, ?_⟩
  have h0 := h.2 0 [.int 1, .str "a"] rfl
  simpa using h0

/-- C6: when a non-empty save-list of names is declared, every output's
last cell is the footer snippet — the persistence call on **that output's
own filename** with exactly the `name=name` keyword associations in
save-list order — and that output's first cell ends with the loader
snippet rendered for the same output filename (whose `.npz` archive it
names, by `loader_template`'s construction). -/
theorem C6_save_list_footer_and_loader (ev : String → Except String (List (String × PyVal)))
    (nb : Notebook) (c : Cell) (ps : List (String × PyVal)) (names : List String)
    (keyed : List (String × List PyVal)) (ipy pfx : String) (quiet st : Bool)
    (h1 : getFirstCell nb = some c)
    (h2 : startsWithStr "## parameters" (lowerStr c.input) = true)
    (h3 : ev c.input = .ok ps)
    (h4 : (ps.lookup "__save__").getD (.list []) = .list (names.map PyVal.str))
    (hne : names ≠ [])
    (h6 : iterateAll (ps.filter (fun kv => kv.1 != "__save__")) = some keyed) :
    ∀ (j : Nat) (p : List PyVal), (pyProduct (keyed.map Prod.snd))[j]? = some p →
      ∃ w : Write, (writesOf (explode ev (some (ipy, pfx)) nb quiet st))[j]? = some w ∧
        w.filename = outfileFor ipy pfx j ∧
        lastInputOf w.doc =
          footer_template (outfileFor ipy pfx j)
            (", ".intercalate (names.map (fun s => s ++ "=" ++ s))) ∧
        firstInputOf w.doc =
          headerFor ipy
            ++ "\n".intercalate
                (((keyed.map Prod.fst).zip p).map (fun kv => assignLine kv.1 kv.2))
            ++ loader_template (outfileFor ipy pfx j)
                (pyStr (.list (names.map PyVal.str))) := by
  intro j p hp
  have hT : pyTruthy (.list (names.map PyVal.str)) = true := by
    rcases names with _ | ⟨n0, ns⟩
    · exact absurd rfl hne
    · rfl
  have hL : ((pyLen (.list (names.map PyVal.str))).getD 0 != 0) = true := by
    rcases names with _ | ⟨n0, ns⟩
    · exact absurd rfl hne
    · simp [pyLen]
  have hsp : savedParamsOf (names.map PyVal.str)
      = ", ".intercalate (names.map (fun s => s ++ "=" ++ s)) := by
    simp only [savedParamsOf, List.map_map]
    rfl
  obtain ⟨hc1, hc2⟩ := cellsLen_base nb c (.list (names.map PyVal.str)) h1
  have hw := explode_writes_getElem ev nb c ps (.list (names.map PyVal.str))
    (names.map PyVal.str) keyed ipy pfx quiet st h1 h2 h3 h4 rfl h6 j p hp
  refine ⟨⟨outfileFor ipy pfx j,
    docFor (if pyTruthy (.list (names.map PyVal.str)) then appendCell nb c else nb)
      ipy pfx (.list (names.map PyVal.str)) (savedParamsOf (names.map PyVal.str))
      (keyed.map Prod.fst) j p⟩, hw, rfl, ?_, ?_⟩
  · rw [lastInputOf_docFor _ _ _ _ _ _ _ _ hc1 hT, hsp]
  · rw [firstInputOf_docFor _ _ _ _ _ _ _ _ hc1 hc2]
    simp only [firstInputFor, hL, if_true]

/-- Witness for C6 on `nbSave` (save-list `['a', 'b']`, prefix `out_`):
the `j = 1` output carries its own filename in footer and loader. -/
theorem C6_witness :
    ∃ w : Write,
      (writesOf (explode evSave (some ("sample.ipynb", "out_")) nbSave false false))[1]?
        = some w ∧
      w.filename = outfileFor "sample.ipynb" "out_" 1 ∧
      lastInputOf w.doc =
        footer_template (outfileFor "sample.ipynb" "out_" 1)
          (", ".intercalate (["a", "b"].map (fun s => s ++ "=" ++ s))) ∧
      firstInputOf w.doc =
        headerFor "sample.ipynb"
          ++ "\n".intercalate [assignLine "x" (.int 2)]
          ++ loader_template (outfileFor "sample.ipynb" "out_" 1)
              (pyStr (.list (["a", "b"].map PyVal.str))) := by
  have h := C6_save_list_footer_and_loader evSave nbSave
    ⟨"## Parameters\nx = [1, 2]\n__save__ = ['a', 'b']"⟩
    [("x", .list [.int 1, .int 2]), ("__save__", .list [.str "a", .str "b"])]
    ["a", "b"] [("x", [.int 1, .int 2])]
    "sample.ipynb" "out_" false false rfl rfl rfl rfl (by decide) rfl
  have h1 := h 1 [.int 2] rfl
  simpa using h1

/-- C7 (amended): each combination's output file is named from the part
of the input path before the **first** occurrence of `.ipynb`
(`rsplit('.ipynb')[0]`); whenever that only occurrence is the path's
extension — input path `base ++ ".ipynb"` with `base` free of `.ipynb` —
this is exactly the extension-stripped name, and write `j` goes to
`pfx ++ base ++ pad4 j ++ ".ipynb"` (index formatted as %04d). -/
theorem C7_output_filenames (ev : String → Except String (List (String × PyVal)))
    (nb : Notebook) (c : Cell) (ps : List (String × PyVal)) (savedVal : PyVal)
    (savedItems : List PyVal) (keyed : List (String × List PyVal))
    (base pfx : String) (quiet st : Bool)
    (h1 : getFirstCell nb = some c)
    (h2 : startsWithStr "## parameters" (lowerStr c.input) = true)
    (h3 : ev c.input = .ok ps)
    (h4 : (ps.lookup "__save__").getD (.list []) = savedVal)
    (h5 : pyIterate savedVal = some savedItems)
    (h6 : iterateAll (ps.filter (fun kv => kv.1 != "__save__")) = some keyed)
    (hocc : occursIn ipynbSep base.data = false) :
    ∀ (j : Nat) (p : List PyVal), (pyProduct (keyed.map Prod.snd))[j]? = some p →
      ∃ w : Write,
        (writesOf (explode ev (some (base ++ ".ipynb", pfx)) nb quiet st))[j]? = some w ∧
        w.filename = pfx ++ base ++ pad4 j ++ ".ipynb" := by
  intro j p hp
  have hw := explode_writes_getElem ev nb c ps savedVal savedItems keyed
    (base ++ ".ipynb") pfx quiet st h1 h2 h3 h4 h5 h6 j p hp
  refine ⟨_, hw, ?_⟩
  show outfileFor (base ++ ".ipynb") pfx j = pfx ++ base ++ pad4 j ++ ".ipynb"
  rw [outfileFor, pyBasename_strip base hocc]

/-- Witness for C7: prefix `pre_`, input `sample.ipynb`, write 3 goes to
`pre_sample0003.ipynb`. -/
theorem C7_witness :
    ∃ w : Write,
      (writesOf (explode evSample (some ("sample" ++ ".ipynb", "pre_")) nbSample
        false false))[3]? = some w ∧
      w.filename = "pre_" ++ "sample" ++ pad4 3 ++ ".ipynb" := by
  have h := C7_output_filenames evSample nbSample
    ⟨"## Parameters\nx = [1, 2]\ny = ['a', 'b']"⟩
    [("x", .list [.int 1, .int 2]), ("y", .list [.str "a", .str "b"])]
    (.list []) []
    [("x", [.int 1, .int 2]), ("y", [.str "a", .str "b"])]
    "sample" "pre_" false false rfl rfl rfl rfl rfl rfl (by decide)
  exact h 3 [.int 2, .str "b"] rfl

/-- C7 counterexample: on the input path `a.ipynb.ipynb` (whose
basename-without-extension is `a.ipynb`), the code cuts at the **first**
occurrence of `.ipynb`, writing `a0000.ipynb` where the claim's formula
demands `a.ipynb0000.ipynb`. -/
theorem C7_counterexample :
    ((writesOf (explode evSample (some ("a.ipynb.ipynb", "")) nbSample false false)).map
        Write.filename)[0]? = some "a0000.ipynb" ∧
      ((writesOf (explode evSample (some ("a.ipynb.ipynb", "")) nbSample false false)).map
        Write.filename)[0]? ≠ some "a.ipynb0000.ipynb" := by
  constructor
  · decide
  · decide
